import Mathlib

/-!
Verification of the Medical Note Summarizer service (`main.py`).

The program is embedded shallowly: Python strings become `List Char`,
Python string primitives (`strip`, `split`, `lower`, substring test, ...)
become executable Lean functions with the same semantics, and the two
HTTP handlers become pure functions over an explicit filesystem / log
state, with the remote model call passed in as an oracle function.
-/

/-! ## Python string primitives -/

/-- The whitespace characters removed by Python `str.strip()` (ASCII part;
the notes processed by the service are plain text). -/
def isPySpace (c : Char) : Bool :=
  c = ' ' || c = '\t' || c = '\n' || c = '\r' || c = '\x0b' || c = '\x0c'

/-- Python `s.strip()`: remove leading and trailing whitespace. -/
def pyStrip (s : List Char) : List Char :=
  List.rdropWhile isPySpace (List.dropWhile isPySpace s)

/-- Python `s.strip(chars)`: remove leading and trailing characters that
belong to `set`. -/
def pyStripChars (set : List Char) (s : List Char) : List Char :=
  List.rdropWhile (fun c => set.contains c) (List.dropWhile (fun c => set.contains c) s)

/-- Split a list at every character satisfying `p`, keeping empty segments
(the behaviour of Python `s.split(sep)` for a one-character `sep`, with
`p` testing equality with `sep`). -/
def splitPred (p : Char → Bool) : List Char → List (List Char)
  | [] => [[]]
  | c :: cs =>
    if p c then [] :: splitPred p cs
    else
      match splitPred p cs with
      | [] => [[c]]
      | r :: rs => (c :: r) :: rs

/-- Python `s.split(sep)` for a one-character separator `sep`. -/
def splitChar (sep : Char) (s : List Char) : List (List Char) :=
  splitPred (fun c => c = sep) s

/-- Python `s.split()` (no argument): split on whitespace runs, dropping
empty pieces. -/
def pyWords (s : List Char) : List (List Char) :=
  (splitPred isPySpace s).filter (fun w => w.isEmpty = false)

/-- Python `needle in haystack` for strings: substring test. -/
def pyContains (needle : List Char) : List Char → Bool
  | [] => needle.isEmpty
  | c :: cs => needle.isPrefixOf (c :: cs) || pyContains needle cs

/-- Python `s.lower()` applied characterwise (the service's data is ASCII
medical text, where `Char.toLower` agrees with Python). -/
def pyLower (s : List Char) : List Char :=
  s.map Char.toLower

/-- Decimal digits, fuelled so that every recursion in this file is
structural and hence evaluates inside the kernel.  The fuel is irrelevant
as soon as it exceeds the argument (`natDigitsGo_val`). -/
def natDigitsGo : Nat → Nat → List Char
  | 0, _ => []
  | fuel + 1, n =>
    if n < 10 then [Char.ofNat (48 + n)]
    else natDigitsGo fuel (n / 10) ++ [Char.ofNat (48 + n % 10)]

/-- Decimal digits of a natural number, most significant first, as produced
by Python `str(n)` / f-string interpolation of a non-negative `int`. -/
def natDigits (n : Nat) : List Char :=
  natDigitsGo (n + 1) n

/-- Python `str(i)` for an `int`. -/
def intDigits (i : Int) : List Char :=
  if i < 0 then '-' :: natDigits (-i).toNat else natDigits i.toNat

/-! ### Facts about the primitives -/

theorem splitPred_ne_nil (p : Char → Bool) (s : List Char) : splitPred p s ≠ [] := by
  cases s with
  | nil => simp [splitPred]
  | cons c cs =>
    rw [splitPred]
    split
    · simp
    · cases h : splitPred p cs <;> simp

theorem pyStrip_nil : pyStrip [] = [] := by
  simp [pyStrip, List.dropWhile, List.rdropWhile]

/-- Value of a digit list, inverting `natDigits`. -/
def digitsVal (l : List Char) : Nat :=
  l.foldl (fun a c => a * 10 + (c.toNat - 48)) 0

theorem char_ofNat_toNat {m : Nat} (h : m < 55296) : (Char.ofNat m).toNat = m := by
  have hv : m.isValidChar := Or.inl h
  simp [Char.ofNat, hv, Char.ofNatAux, Char.toNat, UInt32.toNat]

theorem natDigitsGo_val {fuel n : Nat} (h : n < fuel) :
    digitsVal (natDigitsGo fuel n) = n := by
  induction fuel generalizing n with
  | zero => omega
  | succ fuel ih =>
    rw [natDigitsGo]
    split
    · next hn =>
      simp only [digitsVal, List.foldl]
      rw [char_ofNat_toNat (by omega)]
      omega
    · next hn =>
      have hlt : n / 10 < n := Nat.div_lt_self (by omega) (by omega)
      have ihv := ih (n := n / 10) (by omega)
      simp only [digitsVal] at ihv ⊢
      rw [List.foldl_append]
      simp only [List.foldl]
      rw [ihv, char_ofNat_toNat (by omega)]
      omega

theorem digitsVal_natDigits (n : Nat) : digitsVal (natDigits n) = n :=
  natDigitsGo_val (Nat.lt_succ_self n)

theorem natDigits_injective : Function.Injective natDigits := by
  intro a b h
  have := congrArg digitsVal h
  rwa [digitsVal_natDigits, digitsVal_natDigits] at this

/-! ## The system prompt (`summarize_text`, lines 89-96) -/

def basePrompt : List Char :=
  "You are a medical summarization assistant. Provide a concise summary of the following medical text.".toList

def rolePromptPre : List Char := " Format it for a ".toList

def formatPromptPre : List Char := " Use a ".toList

def formatPromptPost : List Char := " format.".toList

def criticalPrompt : List Char :=
  " Identify and list any critical findings separately at the end of the summary.".toList

/-- Python truthiness of an `Optional[str]` value, as tested by
`if role:` / `if format:`: false for `None` and for the empty string. -/
def pyTruthy : Option (List Char) → Bool
  | none => false
  | some s => s.isEmpty = false

/-- The system prompt built by `summarize_text`: start from the base
sentence and conditionally append the role, format and critical-findings
fragments, mirroring the three `if` statements of the source.  The role
and format tests are Python truthiness tests, so an empty string behaves
like an absent value. -/
def systemMessage (role format : Option (List Char)) (hc : Bool) : List Char :=
  let m1 := basePrompt
  let m2 :=
    if pyTruthy role then m1 ++ rolePromptPre ++ role.getD [] ++ ".".toList else m1
  let m3 :=
    if pyTruthy format then m2 ++ formatPromptPre ++ format.getD [] ++ formatPromptPost
    else m2
  if hc then m3 ++ criticalPrompt else m3

/-- The prompt exactly as claim C4 describes it: the fixed base sentence,
then the role fragment iff a role is provided, then the format fragment
iff a format is provided, then the critical-findings instruction iff
requested, in exactly that order. -/
def systemMessageSpec (role format : Option (List Char)) (hc : Bool) : List Char :=
  basePrompt
    ++ (match role with
        | some r => rolePromptPre ++ r ++ ".".toList
        | none => [])
    ++ (match format with
        | some f => formatPromptPre ++ f ++ formatPromptPost
        | none => [])
    ++ (if hc then criticalPrompt else [])

/-- The amended description: the fragments are appended iff the role
(resp. format) is provided and non-empty, since the source tests the
values for Python truthiness, not for presence. -/
def systemMessageSpecTruthy (role format : Option (List Char)) (hc : Bool) : List Char :=
  basePrompt
    ++ (match role with
        | some r => if r.isEmpty then [] else rolePromptPre ++ r ++ ".".toList
        | none => [])
    ++ (match format with
        | some f => if f.isEmpty then [] else formatPromptPre ++ f ++ formatPromptPost
        | none => [])
    ++ (if hc then criticalPrompt else [])

/-- C4, counterexample to the claim as stated: an empty role string is
provided, yet `if role:` is false and the role fragment is not appended,
so the "appended iff provided" description fails. -/
theorem systemMessage_claim_counterexample :
    systemMessage (some []) none false = basePrompt
    ∧ systemMessageSpec (some []) none false
      = basePrompt ++ rolePromptPre ++ ".".toList
    ∧ systemMessage (some []) none false ≠ systemMessageSpec (some []) none false :=
  ⟨by decide, by decide, by decide⟩

/-- C4 (amended): for every combination of optional role, optional format
and highlight flag, the system prompt sent to the model is the base
sentence with the role fragment appended iff a non-empty role is
provided, then the format fragment iff a non-empty format is provided,
then the critical-findings instruction iff `highlight_critical` is true,
in exactly that order. -/
theorem systemMessage_spec_correct (role format : Option (List Char)) (hc : Bool) :
    systemMessage role format hc = systemMessageSpecTruthy role format hc := by
  have hrole : ∀ o : Option (List Char), o = none ∨ o = some [] ∨
      ∃ c cs, o = some (c :: cs) := by
    intro o
    cases o with
    | none => exact Or.inl rfl
    | some s =>
      cases s with
      | nil => exact Or.inr (Or.inl rfl)
      | cons c cs => exact Or.inr (Or.inr ⟨c, cs, rfl⟩)
  rcases hrole role with hr | hr | ⟨c, cs, hr⟩ <;>
    rcases hrole format with hf | hf | ⟨d, ds, hf⟩ <;>
      subst hr <;> subst hf <;> cases hc <;>
        simp [systemMessage, systemMessageSpecTruthy, pyTruthy, List.append_assoc]

/-! ## `create_simple_source_mapping` (`main.py`, lines 148-165) -/

/-- `[p.strip() for p in source_text.split('\n') if p.strip()]`. -/
def sourceParagraphs (src : List Char) : List (List Char) :=
  ((splitChar '\n' src).map pyStrip).filter (fun p => p.isEmpty = false)

/-- `[s.strip() for s in summary.split('.') if s.strip()]`. -/
def summarySentences (summ : List Char) : List (List Char) :=
  ((splitChar '.' summ).map pyStrip).filter (fun s => s.isEmpty = false)

/-- `[word for word in sentence.split() if len(word) > 5][:3]`. -/
def keyTerms (sentence : List Char) : List (List Char) :=
  (((pyWords sentence).filter (fun w => 5 < w.length)).take 3)

/-- `any(term.lower() in paragraph.lower() for term in key_terms)`. -/
def termMatches (terms : List (List Char)) (p : List Char) : Bool :=
  terms.any (fun t => pyContains (pyLower t) (pyLower p))

/-- The `for j, paragraph in enumerate(source_paragraphs)` loop appending
the indices of the matching paragraphs, with `j` starting at `n`. -/
def matchedParagraphsAux (terms : List (List Char)) : Nat → List (List Char) → List Nat
  | _, [] => []
  | j, p :: ps =>
    if termMatches terms p then j :: matchedParagraphsAux terms (j + 1) ps
    else matchedParagraphsAux terms (j + 1) ps

/-- The dictionary key `f"sentence_{i}"`. -/
def sentenceKey (i : Nat) : List Char :=
  "sentence_".toList ++ natDigits i

/-- The `for i, sentence in enumerate(summary_sentences)` loop building the
result dictionary (an insertion-ordered association list, as Python dicts
are). -/
def mappingAux (paras : List (List Char)) : Nat → List (List Char) → List (List Char × List Nat)
  | _, [] => []
  | i, s :: ss =>
    let mp := matchedParagraphsAux (keyTerms s) 0 paras
    let rest := mappingAux paras (i + 1) ss
    if mp.isEmpty then rest else (sentenceKey i, mp) :: rest

/-- `create_simple_source_mapping(source_text, summary)`. -/
def create_simple_source_mapping (src summ : List Char) : List (List Char × List Nat) :=
  mappingAux (sourceParagraphs src) 0 (summarySentences summ)

/-! ### The reference mapping of claim C1, stated from the claim's words -/

/-- "the list of all such paragraph indices in ascending order". -/
def refMatchedIdxs (terms : List (List Char)) (paras : List (List Char)) : List Nat :=
  (List.range paras.length).filter (fun j => termMatches terms (paras.getD j []))

/-- The entry for sentence `i`: present iff at least one key term occurs
case-insensitively as a substring of some paragraph. -/
def refEntry (paras : List (List Char)) (i : Nat) (s : List Char) :
    Option (List Char × List Nat) :=
  if paras.any (fun p => termMatches (keyTerms s) p) then
    some (sentenceKey i, refMatchedIdxs (keyTerms s) paras)
  else none

/-- The mapping exactly as claim C1 describes it. -/
def sourceMappingRef (src summ : List Char) : List (List Char × List Nat) :=
  let paras := sourceParagraphs src
  let sents := summarySentences summ
  (List.range sents.length).filterMap (fun i => refEntry paras i (sents.getD i []))

/-! ### Relating the loop to the reference mapping -/

theorem refMatchedIdxs_cons (terms : List (List Char)) (p : List Char) (ps : List (List Char)) :
    refMatchedIdxs terms (p :: ps) =
      if termMatches terms p then 0 :: (refMatchedIdxs terms ps).map Nat.succ
      else (refMatchedIdxs terms ps).map Nat.succ := by
  simp only [refMatchedIdxs, List.length_cons, List.range_succ_eq_map, List.filter_cons,
    List.getD_cons_zero, List.filter_map]
  by_cases h : termMatches terms p <;>
    simp [h, Function.comp_def, List.getD_cons_succ]

theorem matchedParagraphsAux_eq (terms : List (List Char)) (ps : List (List Char)) (n : Nat) :
    matchedParagraphsAux terms n ps = (refMatchedIdxs terms ps).map (fun j => n + j) := by
  induction ps generalizing n with
  | nil => simp [matchedParagraphsAux, refMatchedIdxs]
  | cons p ps ih =>
    rw [matchedParagraphsAux, refMatchedIdxs_cons]
    have hf : ((fun j => n + j) ∘ Nat.succ) = (fun j => (n + 1) + j) := by
      funext j
      simp [Function.comp_def]
      omega
    by_cases h : termMatches terms p <;>
      simp [h, ih (n + 1), List.map_map, hf]

theorem matchedParagraphsAux_zero (terms : List (List Char)) (ps : List (List Char)) :
    matchedParagraphsAux terms 0 ps = refMatchedIdxs terms ps := by
  rw [matchedParagraphsAux_eq]
  simp

theorem refMatchedIdxs_eq_nil_iff (terms : List (List Char)) (paras : List (List Char)) :
    refMatchedIdxs terms paras = [] ↔ paras.any (fun p => termMatches terms p) = false := by
  simp only [refMatchedIdxs, List.filter_eq_nil_iff, List.mem_range, List.any_eq_false]
  constructor
  · intro h p hp
    obtain ⟨j, hj, rfl⟩ := List.mem_iff_getElem.mp hp
    have := h j hj
    rwa [List.getD_eq_getElem _ _ hj] at this
  · intro h j hj
    have hmem : paras.getD j [] ∈ paras := by
      rw [List.getD_eq_getElem _ _ hj]
      exact List.getElem_mem _
    exact h _ hmem

theorem mappingAux_eq (paras : List (List Char)) (ss : List (List Char)) (n : Nat) :
    mappingAux paras n ss =
      (List.range ss.length).filterMap (fun i => refEntry paras (n + i) (ss.getD i [])) := by
  induction ss generalizing n with
  | nil => simp [mappingAux]
  | cons s ss ih =>
    have hmp : matchedParagraphsAux (keyTerms s) 0 paras = refMatchedIdxs (keyTerms s) paras :=
      matchedParagraphsAux_zero _ _
    have hcomp : ((fun i => refEntry paras (n + i) ((s :: ss).getD i [])) ∘ Nat.succ)
        = fun i => refEntry paras ((n + 1) + i) (ss.getD i []) := by
      funext i
      have hni : n + (i + 1) = (n + 1) + i := by omega
      simp [Function.comp_def, List.getD_cons_succ, hni]
    rw [List.length_cons, List.range_succ_eq_map]
    by_cases h : paras.any (fun p => termMatches (keyTerms s) p)
    · have hsome : (fun i => refEntry paras (n + i) ((s :: ss).getD i [])) 0
          = some (sentenceKey n, refMatchedIdxs (keyTerms s) paras) := by
        simp only [List.getD_cons_zero, Nat.add_zero, refEntry, h, if_true]
      rw [List.filterMap_cons_some (f := fun i => refEntry paras (n + i) ((s :: ss).getD i []))
          hsome,
        List.filterMap_map, hcomp, ← ih (n + 1)]
      simp only [mappingAux, hmp]
      cases hl : refMatchedIdxs (keyTerms s) paras with
      | nil =>
        rw [refMatchedIdxs_eq_nil_iff] at hl
        simp [h] at hl
      | cons a as => simp
    · rw [Bool.not_eq_true] at h
      have hnone : (fun i => refEntry paras (n + i) ((s :: ss).getD i [])) 0 = none := by
        simp only [List.getD_cons_zero, Nat.add_zero, refEntry, h]
        simp
      have hnil : refMatchedIdxs (keyTerms s) paras = [] := by
        rw [refMatchedIdxs_eq_nil_iff]
        exact h
      rw [List.filterMap_cons_none (f := fun i => refEntry paras (n + i) ((s :: ss).getD i []))
          hnone,
        List.filterMap_map, hcomp, ← ih (n + 1)]
      simp only [mappingAux, hmp, hnil]
      simp

theorem mapping_eq_ref (src summ : List Char) :
    create_simple_source_mapping src summ = sourceMappingRef src summ := by
  rw [create_simple_source_mapping, sourceMappingRef, mappingAux_eq]
  simp

/-- C1: for every source text and summary, `create_simple_source_mapping`
returns exactly the reference mapping: paragraphs are the non-empty
stripped newline-segments of the source, sentences the non-empty stripped
`'.'`-segments of the summary, the key terms of sentence `i` are its first
three words longer than five characters, the entry `"sentence_i"` is
present iff some key term occurs case-insensitively as a substring of some
paragraph, and its value is the ascending list of all matching paragraph
indices. -/
theorem create_simple_source_mapping_correct (src summ : List Char) :
    create_simple_source_mapping src summ = sourceMappingRef src summ :=
  mapping_eq_ref src summ

/-- C8: every value list of the mapping is non-empty, strictly increasing
and made of valid paragraph indices, and a summary sentence without any
word longer than five characters never contributes a key. -/
theorem create_simple_source_mapping_invariants (src summ : List Char) :
    (∀ k l, (k, l) ∈ create_simple_source_mapping src summ →
        l ≠ [] ∧ l.Pairwise (· < ·) ∧ ∀ j ∈ l, j < (sourceParagraphs src).length)
    ∧ ∀ i l, (∀ w ∈ pyWords ((summarySentences summ).getD i []), ¬ 5 < w.length) →
        (sentenceKey i, l) ∉ create_simple_source_mapping src summ := by
  rw [mapping_eq_ref]
  constructor
  · intro k l hmem
    simp only [sourceMappingRef] at hmem
    obtain ⟨i, hi, hsome⟩ := List.mem_filterMap.mp hmem
    rw [refEntry] at hsome
    split at hsome
    · next hcond =>
      simp only [Option.some.injEq, Prod.mk.injEq] at hsome
      obtain ⟨hk, hl⟩ := hsome
      subst hl
      refine ⟨?_, ?_, ?_⟩
      · intro hnil
        rw [refMatchedIdxs_eq_nil_iff, hcond] at hnil
        exact Bool.noConfusion hnil
      · exact (List.pairwise_lt_range _).filter _
      · intro j hj
        have := List.mem_filter.mp hj
        exact List.mem_range.mp this.1
    · exact absurd hsome (by simp)
  · intro i l hwords hmem
    simp only [sourceMappingRef] at hmem
    obtain ⟨i', hi', hsome⟩ := List.mem_filterMap.mp hmem
    rw [refEntry] at hsome
    split at hsome
    · next hcond =>
      simp only [Option.some.injEq, Prod.mk.injEq] at hsome
      obtain ⟨hk, hl⟩ := hsome
      have hii : i' = i := by
        have hk2 : "sentence_".toList ++ natDigits i' = "sentence_".toList ++ natDigits i := hk
        exact natDigits_injective (List.append_cancel_left hk2)
      subst hii
      have hkt : keyTerms ((summarySentences summ).getD i' []) = [] := by
        rw [keyTerms]
        have hfil : (pyWords ((summarySentences summ).getD i' [])).filter
            (fun w => 5 < w.length) = [] := by
          rw [List.filter_eq_nil_iff]
          intro w hw
          simpa using hwords w hw
        rw [hfil]
        rfl
      rw [hkt] at hcond
      simp [termMatches] at hcond
    · exact absurd hsome (by simp)

/-- Witness for C8 on a concrete note and summary: sentence 0 maps to the
increasing valid index list `[0, 1]`, and sentence 1 (`"ok"`, no word
longer than five characters) has no entry. -/
theorem create_simple_source_mapping_invariants_witness :
    ([0, 1] ≠ [] ∧ List.Pairwise (· < ·) [0, 1] ∧
        ∀ j ∈ [0, 1], j < (sourceParagraphs
          "The patient presented fever\nGiven antibiotics treatment".toList).length)
    ∧ (sentenceKey 1, [0]) ∉ create_simple_source_mapping
        "The patient presented fever\nGiven antibiotics treatment".toList
        "Patient presented with antibiotics. ok.".toList :=
  ⟨(create_simple_source_mapping_invariants
      "The patient presented fever\nGiven antibiotics treatment".toList
      "Patient presented with antibiotics. ok.".toList).1
      (sentenceKey 0) [0, 1] (by decide),
   (create_simple_source_mapping_invariants
      "The patient presented fever\nGiven antibiotics treatment".toList
      "Patient presented with antibiotics. ok.".toList).2
      1 [0] (by decide)⟩

/-! ## `summarize_text` (`main.py`, lines 83-146) -/

/-- The literal marker `"Critical Findings"`. -/
def cfMarker : List Char := "Critical Findings".toList

/-- Split at the first occurrence of `sep`: `some (pre, post)` with
`s = pre ++ sep ++ post` and `pre` shortest, `none` when `sep` does not
occur in `s`. -/
def splitFirst (sep : List Char) : List Char → Option (List Char × List Char)
  | [] => none
  | c :: cs =>
    if sep.isPrefixOf (c :: cs) then some ([], (c :: cs).drop sep.length)
    else
      match splitFirst sep cs with
      | none => none
      | some (pre, post) => some (c :: pre, post)

/-- Python `s.split("Critical Findings")`, fuelled so the recursion is
structural; the fuel never runs out for `fuel ≥ s.length`
(`pySplitCF_eq`). -/
def pySplitCFGo : Nat → List Char → List (List Char)
  | 0, s => [s]
  | fuel + 1, s =>
    match splitFirst cfMarker s with
    | none => [s]
    | some (pre, post) => pre :: pySplitCFGo fuel post

/-- Python `summary.split("Critical Findings")`. -/
def pySplitCF (s : List Char) : List (List Char) :=
  pySplitCFGo s.length s

/-- `f.strip().strip("**").strip(":")`. -/
def cleanFinding (f : List Char) : List Char :=
  pyStripChars ":".toList (pyStripChars "**".toList (pyStrip f))

/-- The comprehension body: keep the pieces whose strip is non-empty, and
clean each kept piece. -/
def cleanPieces (L : List (List Char)) : List (List Char) :=
  (L.filter (fun f => (pyStrip f).isEmpty = false)).map cleanFinding

/-- `[f.strip().strip("**").strip(":") for f in x.split('\n') if f.strip()]`. -/
def criticalLines (x : List Char) : List (List Char) :=
  cleanPieces (splitChar '\n' x)

/-- The dictionary returned by `summarize_text` (the fields the claims
speak about; `file_name` is added by `create_summaries`, `metadata` only
echoes the request and the token counts). -/
structure SummaryResult where
  summary_id : List Char
  file_name : List Char
  summary : List Char
  critical_findings : Option (List (List Char))
  source_mappings : List (List Char × List Nat)
deriving DecidableEq

/-- `summarize_text(text, role, format, highlight_critical)` where `t` is
the value of `int(time.time())` when the result is assembled and `respond`
is the oracle abstracting `openai.ChatCompletion.create`, mapping the
(system message, user text) pair to the model's reply.  The second
component records the request actually sent to the model. -/
def summarize_text (respond : List Char → List Char → List Char) (t : Nat)
    (text : List Char) (role format : Option (List Char)) (hc : Bool) :
    SummaryResult × (List Char × List Char) :=
  let sys := systemMessage role format hc
  let response := respond sys text
  let summary0 := pyStrip response
  let hasCF := hc && pyContains cfMarker summary0
  let parts := pySplitCF summary0
  let summary := if hasCF then pyStrip (parts.getD 0 []) else summary0
  let critical :=
    if hasCF then some (criticalLines (pyStrip (parts.getD 1 []))) else none
  ({ summary_id := "sum_".toList ++ natDigits t
     file_name := []
     summary := summary
     critical_findings := critical
     source_mappings := create_simple_source_mapping text summary }, (sys, text))

/-- The first segment of `post` up to the next occurrence of the marker
(all of `post` when there is none). -/
def segBeforeNextCF (post : List Char) : List Char :=
  match splitFirst cfMarker post with
  | none => post
  | some (pre, _) => pre

/-- Claim C2 read literally: when highlighting is on and the marker occurs
in the response, the summary is the stripped text preceding the (first)
marker and the findings are the non-blank lines of all the text following
it, each cleaned; otherwise the whole stripped response and no findings. -/
def summarizeRefClaim (response : List Char) (hc : Bool) :
    List Char × Option (List (List Char)) :=
  match (if hc then splitFirst cfMarker response else none) with
  | none => (pyStrip response, none)
  | some (pre, post) => (pyStrip pre, some (criticalLines post))

/-- The amended reading: identical, except that the findings are taken
only from the text between the first marker and the next occurrence of
the marker (to its end when it occurs once). -/
def summarizeRefAmended (response : List Char) (hc : Bool) :
    List Char × Option (List (List Char)) :=
  match (if hc then splitFirst cfMarker response else none) with
  | none => (pyStrip response, none)
  | some (pre, post) => (pyStrip pre, some (criticalLines (segBeforeNextCF post)))

/-! ### Facts about `splitFirst` and `pySplitCF` -/

theorem splitFirst_eq_some {sep : List Char} {s pre post : List Char}
    (h : splitFirst sep s = some (pre, post)) : s = pre ++ sep ++ post := by
  induction s generalizing pre with
  | nil => exact absurd h (by simp [splitFirst])
  | cons c cs ih =>
    rw [splitFirst] at h
    split at h
    · next hp =>
      obtain ⟨t, ht⟩ := List.isPrefixOf_iff_prefix.mp hp
      simp only [Option.some.injEq, Prod.mk.injEq] at h
      obtain ⟨hpre, hpost⟩ := h
      subst hpre
      rw [← ht, List.drop_left] at hpost
      rw [← hpost, List.nil_append]
      exact ht.symm
    · next hp =>
      cases hcs : splitFirst sep cs with
      | none => rw [hcs] at h; exact absurd h (by simp)
      | some pq =>
        obtain ⟨p, q⟩ := pq
        rw [hcs] at h
        simp only [Option.some.injEq, Prod.mk.injEq] at h
        obtain ⟨hpre, hpost⟩ := h
        subst hpre
        subst hpost
        have := ih hcs
        rw [List.cons_append, List.cons_append, ← this]

theorem splitFirst_post_length {sep : List Char} {s pre post : List Char}
    (hsep : sep ≠ []) (h : splitFirst sep s = some (pre, post)) :
    post.length < s.length := by
  have hs := splitFirst_eq_some h
  subst hs
  have : 0 < sep.length := List.length_pos.mpr hsep
  simp [List.length_append]
  omega

theorem cfMarker_ne_nil : cfMarker ≠ [] := by decide

theorem pySplitCFGo_fuel {f1 f2 : Nat} {s : List Char}
    (h1 : s.length ≤ f1) (h2 : s.length ≤ f2) :
    pySplitCFGo f1 s = pySplitCFGo f2 s := by
  induction f1 generalizing f2 s with
  | zero =>
    have hs : s = [] := List.length_eq_zero.mp (by omega)
    subst hs
    cases f2 with
    | zero => rfl
    | succ f2 => simp [pySplitCFGo, splitFirst]
  | succ f1 ih =>
    cases f2 with
    | zero =>
      have hs : s = [] := List.length_eq_zero.mp (by omega)
      subst hs
      simp [pySplitCFGo, splitFirst]
    | succ f2 =>
      rw [pySplitCFGo, pySplitCFGo]
      cases hsp : splitFirst cfMarker s with
      | none => rfl
      | some pq =>
        obtain ⟨pre, post⟩ := pq
        have hlt := splitFirst_post_length cfMarker_ne_nil hsp
        show pre :: pySplitCFGo f1 post = pre :: pySplitCFGo f2 post
        exact congrArg (fun l => pre :: l) (@ih f2 post (by omega) (by omega))

theorem pySplitCF_eq (s : List Char) :
    pySplitCF s = match splitFirst cfMarker s with
      | none => [s]
      | some (pre, post) => pre :: pySplitCF post := by
  rw [pySplitCF]
  cases hsp : splitFirst cfMarker s with
  | none =>
    cases hl : s.length with
    | zero => rfl
    | succ n =>
      rw [pySplitCFGo, hsp]
  | some pq =>
    obtain ⟨pre, post⟩ := pq
    have hlt := splitFirst_post_length cfMarker_ne_nil hsp
    cases hl : s.length with
    | zero => omega
    | succ n =>
      rw [pySplitCFGo, hsp]
      show pre :: pySplitCFGo n post = pre :: pySplitCF post
      rw [pySplitCF]
      rw [@pySplitCFGo_fuel n post.length post (by omega) (by omega)]

theorem pySplitCF_parts {s pre post : List Char}
    (h : splitFirst cfMarker s = some (pre, post)) :
    (pySplitCF s).getD 0 [] = pre ∧ (pySplitCF s).getD 1 [] = segBeforeNextCF post := by
  rw [pySplitCF_eq, h]
  refine ⟨rfl, ?_⟩
  show (pySplitCF post).getD 0 [] = segBeforeNextCF post
  rw [pySplitCF_eq, segBeforeNextCF]
  cases h2 : splitFirst cfMarker post with
  | none => rfl
  | some pq => obtain ⟨p, q⟩ := pq; rfl

theorem pyContains_iff_found {needle : List Char} (h : List Char) :
    pyContains needle h = true ↔ needle <:+: h := by
  induction h with
  | nil =>
    simp only [pyContains, List.isEmpty_iff, List.infix_nil]
  | cons c cs ih =>
    simp only [pyContains, Bool.or_eq_true, List.isPrefixOf_iff_prefix, ih,
      List.infix_cons_iff]

theorem splitFirst_isSome_iff {sep : List Char} (hsep : sep ≠ []) (s : List Char) :
    (splitFirst sep s).isSome = true ↔ sep <:+: s := by
  constructor
  · intro h
    obtain ⟨pq, hpq⟩ := Option.isSome_iff_exists.mp h
    obtain ⟨pre, post⟩ := pq
    have := splitFirst_eq_some hpq
    exact ⟨pre, post, this.symm⟩
  · intro h
    induction s with
    | nil => exact absurd (List.eq_nil_of_infix_nil h) hsep
    | cons c cs ih =>
      rw [splitFirst]
      rcases List.infix_cons_iff.mp h with hp | hi
      · rw [if_pos (List.isPrefixOf_iff_prefix.mpr hp)]
        rfl
      · split
        · rfl
        · have := ih hi
          cases hcs : splitFirst sep cs with
          | none => rw [hcs] at this; exact absurd this (by simp)
          | some pq => obtain ⟨p, q⟩ := pq; rfl

/-! ### Strips commute with the first-occurrence split -/

theorem rdropWhile_append (p : Char → Bool) (a b : List Char) :
    List.rdropWhile p (a ++ b) =
      if List.rdropWhile p b = [] then List.rdropWhile p a else a ++ List.rdropWhile p b := by
  simp only [List.rdropWhile, List.reverse_append, List.dropWhile_append]
  split
  · next h =>
    rw [if_pos]
    rwa [List.isEmpty_iff, ← List.reverse_eq_nil_iff] at h
  · next h =>
    rw [if_neg, List.reverse_append, List.reverse_reverse]
    intro hnil
    exact h (by rw [List.isEmpty_iff]; exact List.reverse_eq_nil_iff.mp hnil)

theorem rdropWhile_cons (p : Char → Bool) (c : Char) (l : List Char) :
    List.rdropWhile p (c :: l) =
      if List.rdropWhile p l = [] then (if p c then [] else [c])
      else c :: List.rdropWhile p l := by
  have := rdropWhile_append p [c] l
  simp only [List.singleton_append] at this
  rw [this, List.rdropWhile_singleton]

theorem dropWhile_rdropWhile (p : Char → Bool) (l : List Char) :
    List.dropWhile p (List.rdropWhile p l) = List.rdropWhile p (List.dropWhile p l) := by
  induction l with
  | nil => simp
  | cons c l ih =>
    by_cases hc : p c <;> by_cases hnil : List.rdropWhile p l = []
    · have hdw : List.dropWhile p l = [] :=
        List.dropWhile_eq_nil_iff.mpr (List.rdropWhile_eq_nil_iff.mp hnil)
      simp [rdropWhile_cons, hnil, hc, hdw]
    · simp [rdropWhile_cons, hnil, hc, ih]
    · simp [rdropWhile_cons, hnil, hc]
    · simp [rdropWhile_cons, hnil, hc]

theorem pyStrip_dropWhile (s : List Char) :
    pyStrip (List.dropWhile isPySpace s) = pyStrip s := by
  rw [pyStrip, pyStrip, List.dropWhile_idempotent]

theorem pyStrip_rdropWhile (s : List Char) :
    pyStrip (List.rdropWhile isPySpace s) = pyStrip s := by
  rw [pyStrip, pyStrip, dropWhile_rdropWhile, List.rdropWhile_idempotent]

theorem splitFirst_prefix_self (x : List Char) :
    splitFirst cfMarker (cfMarker ++ x) = some ([], x) := by
  have hshape : cfMarker ++ x = 'C' :: ("ritical Findings".toList ++ x) := by
    rw [show cfMarker = 'C' :: "ritical Findings".toList by decide, List.cons_append]
  have hpf : cfMarker.isPrefixOf ('C' :: ("ritical Findings".toList ++ x)) = true := by
    rw [List.isPrefixOf_iff_prefix]
    exact ⟨x, by rw [← hshape]⟩
  rw [hshape, splitFirst, if_pos hpf, ← hshape, List.drop_left]

theorem splitFirst_dropWhile {s pre post : List Char}
    (h : splitFirst cfMarker s = some (pre, post)) :
    splitFirst cfMarker (List.dropWhile isPySpace s) =
      some (List.dropWhile isPySpace pre, post) := by
  induction s generalizing pre with
  | nil => simp [splitFirst] at h
  | cons c cs ih =>
    rw [splitFirst] at h
    split at h
    · next hp =>
      simp only [Option.some.injEq, Prod.mk.injEq] at h
      obtain ⟨hpre, hpost⟩ := h
      subst hpre
      have hpfx := List.isPrefixOf_iff_prefix.mp hp
      have hC : c = 'C' := by
        rw [show cfMarker = 'C' :: "ritical Findings".toList by decide] at hpfx
        exact (List.cons_prefix_iff.mp hpfx).1.symm
      have hws : ¬ isPySpace c = true := by rw [hC]; decide
      rw [List.dropWhile_cons_of_neg hws, splitFirst, if_pos hp, hpost]
      simp
    · next hp =>
      cases hcs : splitFirst cfMarker cs with
      | none => rw [hcs] at h; simp at h
      | some pq =>
        obtain ⟨p, q⟩ := pq
        rw [hcs] at h
        simp only [Option.some.injEq, Prod.mk.injEq] at h
        obtain ⟨hpre, hpost⟩ := h
        subst hpre
        subst hpost
        by_cases hws : isPySpace c = true
        · rw [List.dropWhile_cons_of_pos hws, ih hcs, List.dropWhile_cons_of_pos hws]
        · rw [List.dropWhile_cons_of_neg hws, List.dropWhile_cons_of_neg hws,
            splitFirst, if_neg hp, hcs]

theorem splitFirst_rdropWhile {s pre post : List Char}
    (h : splitFirst cfMarker s = some (pre, post)) :
    splitFirst cfMarker (List.rdropWhile isPySpace s) =
      some (pre, List.rdropWhile isPySpace post) := by
  induction s generalizing pre with
  | nil => simp [splitFirst] at h
  | cons c cs ih =>
    rw [splitFirst] at h
    split at h
    · next hp =>
      simp only [Option.some.injEq, Prod.mk.injEq] at h
      obtain ⟨hpre, hpost⟩ := h
      subst hpre
      obtain ⟨t, ht⟩ := List.isPrefixOf_iff_prefix.mp hp
      have htp : t = post := by rw [← hpost, ← ht, List.drop_left]
      subst htp
      rw [← ht, rdropWhile_append]
      split
      · next hqnil =>
        have hrc : List.rdropWhile isPySpace cfMarker = cfMarker := by decide
        have hself := splitFirst_prefix_self []
        rw [List.append_nil] at hself
        rw [hrc, hqnil]
        exact hself
      · next hqne =>
        exact splitFirst_prefix_self _
    · next hp =>
      cases hcs : splitFirst cfMarker cs with
      | none => rw [hcs] at h; simp at h
      | some pq =>
        obtain ⟨p, q⟩ := pq
        rw [hcs] at h
        simp only [Option.some.injEq, Prod.mk.injEq] at h
        obtain ⟨hpre, hpost⟩ := h
        subst hpre
        subst hpost
        have hcsne : List.rdropWhile isPySpace cs ≠ [] := by
          intro hnil
          have hall := List.rdropWhile_eq_nil_iff.mp hnil
          have hdecomp := splitFirst_eq_some hcs
          have hCmem : 'C' ∈ cs := by
            rw [hdecomp]
            have hmm : 'C' ∈ cfMarker := by decide
            simp [List.mem_append, hmm]
          exact absurd (hall _ hCmem) (by decide)
        rw [rdropWhile_cons, if_neg hcsne]
        have hnp : ¬ cfMarker.isPrefixOf (c :: List.rdropWhile isPySpace cs) = true := by
          intro hpf
          apply hp
          rw [List.isPrefixOf_iff_prefix] at hpf ⊢
          have hsub : (c :: List.rdropWhile isPySpace cs) <+: (c :: cs) :=
            List.cons_prefix_iff.mpr ⟨rfl, List.rdropWhile_prefix _ _⟩
          exact hpf.trans hsub
        rw [splitFirst, if_neg hnp, ih hcs]

/-! ### Blank-line cleaning ignores outer whitespace -/

theorem pyStrip_cons_ws {d : Char} (hd : isPySpace d = true) (x : List Char) :
    pyStrip (d :: x) = pyStrip x := by
  rw [pyStrip, pyStrip, List.dropWhile_cons_of_pos hd]

theorem pyStrip_concat_ws {d : Char} (hd : isPySpace d = true) (x : List Char) :
    pyStrip (x ++ [d]) = pyStrip x := by
  rw [pyStrip, pyStrip, List.dropWhile_append]
  split
  · next h =>
    rw [List.dropWhile_cons_of_pos hd, List.dropWhile_nil]
    rw [List.isEmpty_iff] at h
    rw [h]
  · next h =>
    rw [List.rdropWhile_concat_pos _ _ _ hd]

theorem cleanFinding_cons_ws {d : Char} (hd : isPySpace d = true) (x : List Char) :
    cleanFinding (d :: x) = cleanFinding x := by
  simp only [cleanFinding, pyStrip_cons_ws hd]

theorem cleanFinding_concat_ws {d : Char} (hd : isPySpace d = true) (x : List Char) :
    cleanFinding (x ++ [d]) = cleanFinding x := by
  simp only [cleanFinding, pyStrip_concat_ws hd]

theorem splitPred_append (p : Char → Bool) (x y : List Char) :
    splitPred p (x ++ y) =
      (splitPred p x).dropLast ++
        ((splitPred p x).getLastD [] ++ (splitPred p y).headD []) :: (splitPred p y).tail := by
  induction x with
  | nil =>
    cases hy : splitPred p y with
    | nil => exact absurd hy (splitPred_ne_nil p y)
    | cons r rs => simp [splitPred, hy]
  | cons c x ih =>
    simp only [List.cons_append, splitPred, List.append_eq]
    by_cases hp : p c = true
    · simp only [hp, if_true]
      rw [ih]
      cases hsx : splitPred p x with
      | nil => exact absurd hsx (splitPred_ne_nil p x)
      | cons r0 rs0 =>
        have hgl : ([] :: r0 :: rs0).getLastD ([] : List Char) = (r0 :: rs0).getLastD [] :=
          List.getLastD_cons _ _ _
        rw [List.dropLast_cons₂, hgl, List.cons_append]
    · simp only [if_neg hp]
      cases hsx : splitPred p x with
      | nil => exact absurd hsx (splitPred_ne_nil p x)
      | cons r0 rs0 =>
        rw [ih, hsx]
        cases rs0 with
        | nil => simp
        | cons s1 rs1 =>
          simp [List.cons_append, List.getLastD_cons]

theorem cleanPieces_cons (l : List Char) (L : List (List Char)) :
    cleanPieces (l :: L) =
      (if (pyStrip l).isEmpty = false then [cleanFinding l] else []) ++ cleanPieces L := by
  simp only [cleanPieces, List.filter_cons]
  split
  · next h =>
    simp at h
    simp [h]
  · next h =>
    simp at h
    simp [h]

theorem cleanPieces_append (A B : List (List Char)) :
    cleanPieces (A ++ B) = cleanPieces A ++ cleanPieces B := by
  simp [cleanPieces, List.filter_append]

theorem cleanPieces_blank : cleanPieces [[]] = [] := by
  simp [cleanPieces, pyStrip_nil]

theorem cleanPieces_single_concat_ws {d : Char} (hd : isPySpace d = true) (l : List Char) :
    cleanPieces [l ++ [d]] = cleanPieces [l] := by
  simp only [cleanPieces, List.filter_cons, pyStrip_concat_ws hd]
  split <;> simp [cleanFinding_concat_ws hd]

theorem dropLast_append_getLastD :
    ∀ {L : List (List Char)}, L ≠ [] → L.dropLast ++ [L.getLastD []] = L := by
  intro L
  induction L with
  | nil => intro h; contradiction
  | cons a t ih =>
    intro _
    cases t with
    | nil => rfl
    | cons b t' =>
      rw [List.dropLast_cons₂, List.getLastD_cons, List.cons_append]
      have hbt : (b :: t').getLastD a = (b :: t').getLastD [] := by
        rw [List.getLastD_cons, List.getLastD_cons]
      rw [hbt, ih (by simp)]

theorem criticalLines_cons_ws {d : Char} (hd : isPySpace d = true) (x : List Char) :
    criticalLines (d :: x) = criticalLines x := by
  by_cases hnl : d = '\n'
  · subst hnl
    rw [criticalLines, criticalLines, splitChar, splitChar, splitPred]
    rw [if_pos (by decide)]
    rw [cleanPieces_cons]
    simp [pyStrip_nil]
  · rw [criticalLines, criticalLines, splitChar, splitChar, splitPred]
    rw [if_neg (by simp [hnl])]
    cases hsp : splitPred (fun c => decide (c = '\n')) x with
    | nil => exact absurd hsp (splitPred_ne_nil _ _)
    | cons r rs =>
      rw [cleanPieces_cons, cleanPieces_cons, pyStrip_cons_ws hd, cleanFinding_cons_ws hd]

theorem criticalLines_concat_ws {d : Char} (hd : isPySpace d = true) (x : List Char) :
    criticalLines (x ++ [d]) = criticalLines x := by
  rw [criticalLines, criticalLines, splitChar, splitChar, splitPred_append]
  have hne : splitPred (fun c => decide (c = '\n')) x ≠ [] := splitPred_ne_nil _ _
  by_cases hnl : d = '\n'
  · subst hnl
    have hsd : splitPred (fun c => decide (c = '\n')) ['\n'] = [[], []] := rfl
    rw [hsd]
    simp only [List.headD_cons, List.tail_cons, List.append_nil]
    rw [List.append_cons, cleanPieces_append, cleanPieces_blank, List.append_nil,
      dropLast_append_getLastD hne]
  · have hsd : splitPred (fun c => decide (c = '\n')) [d] = [[d]] := by
      rw [splitPred, if_neg (by simp [hnl])]
      rfl
    rw [hsd]
    simp only [List.headD_cons, List.tail_cons]
    rw [cleanPieces_append, cleanPieces_single_concat_ws hd, ← cleanPieces_append,
      dropLast_append_getLastD hne]

theorem criticalLines_append_ws (x : List Char) :
    ∀ {w : List Char}, (∀ c ∈ w, isPySpace c = true) →
      criticalLines (x ++ w) = criticalLines x := by
  intro w
  induction w using List.reverseRecOn with
  | nil => intro _; simp
  | append_singleton w d ih =>
    intro hw
    rw [← List.append_assoc, criticalLines_concat_ws (hw d (by simp))]
    exact ih (fun c hc => hw c (by simp [hc]))

theorem criticalLines_dropWhile (x : List Char) :
    criticalLines (List.dropWhile isPySpace x) = criticalLines x := by
  induction x with
  | nil => simp
  | cons c x ih =>
    by_cases hc : isPySpace c = true
    · rw [List.dropWhile_cons_of_pos hc, ih, criticalLines_cons_ws hc]
    · rw [List.dropWhile_cons_of_neg hc]

theorem rdropWhile_append_rtakeWhile (p : Char → Bool) (l : List Char) :
    List.rdropWhile p l ++ List.rtakeWhile p l = l := by
  rw [List.rdropWhile, List.rtakeWhile, ← List.reverse_append,
    List.takeWhile_append_dropWhile, List.reverse_reverse]

theorem criticalLines_pyStrip (x : List Char) :
    criticalLines (pyStrip x) = criticalLines x := by
  rw [pyStrip]
  have hws : ∀ c ∈ List.rtakeWhile isPySpace (List.dropWhile isPySpace x),
      isPySpace c = true := fun c hc => List.mem_rtakeWhile_imp hc
  calc criticalLines (List.rdropWhile isPySpace (List.dropWhile isPySpace x))
      = criticalLines (List.rdropWhile isPySpace (List.dropWhile isPySpace x)
          ++ List.rtakeWhile isPySpace (List.dropWhile isPySpace x)) :=
        (criticalLines_append_ws _ hws).symm
    _ = criticalLines (List.dropWhile isPySpace x) := by
        rw [rdropWhile_append_rtakeWhile]
    _ = criticalLines x := criticalLines_dropWhile x

theorem segBeforeNextCF_strip_eq (post : List Char) :
    criticalLines (pyStrip (segBeforeNextCF (List.rdropWhile isPySpace post)))
      = criticalLines (segBeforeNextCF post) := by
  rw [criticalLines_pyStrip]
  cases h2 : splitFirst cfMarker post with
  | some pq =>
    obtain ⟨p2, q2⟩ := pq
    have h3 := splitFirst_rdropWhile h2
    rw [segBeforeNextCF, segBeforeNextCF, h2, h3]
  | none =>
    have h3 : splitFirst cfMarker (List.rdropWhile isPySpace post) = none := by
      cases h4 : splitFirst cfMarker (List.rdropWhile isPySpace post) with
      | none => rfl
      | some pq =>
        obtain ⟨a, b⟩ := pq
        have hinf : cfMarker <:+: List.rdropWhile isPySpace post :=
          (splitFirst_isSome_iff cfMarker_ne_nil _).mp (by rw [h4]; rfl)
        have hinf2 : cfMarker <:+: post :=
          hinf.trans (List.rdropWhile_prefix _ _).isInfix
        have := (splitFirst_isSome_iff cfMarker_ne_nil post).mpr hinf2
        rw [h2] at this
        exact absurd this (by simp)
    rw [segBeforeNextCF, segBeforeNextCF, h2, h3]
    have hws : ∀ c ∈ List.rtakeWhile isPySpace post, isPySpace c = true :=
      fun c hc => List.mem_rtakeWhile_imp hc
    calc criticalLines (List.rdropWhile isPySpace post)
        = criticalLines (List.rdropWhile isPySpace post
            ++ List.rtakeWhile isPySpace post) := (criticalLines_append_ws _ hws).symm
      _ = criticalLines post := by rw [rdropWhile_append_rtakeWhile]

theorem extractCritical_eq (response : List Char) (hc : Bool) :
    ((if hc && pyContains cfMarker (pyStrip response) then
        pyStrip ((pySplitCF (pyStrip response)).getD 0 [])
      else pyStrip response),
     (if hc && pyContains cfMarker (pyStrip response) then
        some (criticalLines (pyStrip ((pySplitCF (pyStrip response)).getD 1 [])))
      else none))
    = summarizeRefAmended response hc := by
  cases hc with
  | false =>
    rw [summarizeRefAmended]
    simp
  | true =>
    rw [summarizeRefAmended, if_pos rfl]
    simp only [Bool.true_and]
    by_cases hin : pyContains cfMarker (pyStrip response) = true
    · have hmark : cfMarker <:+: pyStrip response := (pyContains_iff_found _).mp hin
      have hstrip_inf : pyStrip response <:+: response := by
        rw [pyStrip]
        exact ((List.rdropWhile_prefix _ _).isInfix).trans
          ((List.dropWhile_suffix _).isInfix)
      have hsome := (splitFirst_isSome_iff cfMarker_ne_nil response).mpr
        (hmark.trans hstrip_inf)
      obtain ⟨pq, hsp⟩ := Option.isSome_iff_exists.mp hsome
      obtain ⟨pre, post⟩ := pq
      have hsp2 : splitFirst cfMarker (pyStrip response)
          = some (List.dropWhile isPySpace pre, List.rdropWhile isPySpace post) := by
        rw [pyStrip]
        exact splitFirst_rdropWhile (splitFirst_dropWhile hsp)
      obtain ⟨hp0, hp1⟩ := pySplitCF_parts hsp2
      rw [if_pos hin, if_pos hin, hsp, hp0, hp1, pyStrip_dropWhile,
        segBeforeNextCF_strip_eq]
    · have hnone : splitFirst cfMarker response = none := by
        cases hsp : splitFirst cfMarker response with
        | none => rfl
        | some pq =>
          obtain ⟨pre, post⟩ := pq
          have hsp2 : splitFirst cfMarker (pyStrip response)
              = some (List.dropWhile isPySpace pre, List.rdropWhile isPySpace post) := by
            rw [pyStrip]
            exact splitFirst_rdropWhile (splitFirst_dropWhile hsp)
          have hin2 : pyContains cfMarker (pyStrip response) = true := by
            rw [pyContains_iff_found]
            exact (splitFirst_isSome_iff cfMarker_ne_nil _).mp (by rw [hsp2]; rfl)
          exact absurd hin2 hin
      rw [hnone, if_neg hin, if_neg hin]

/-- C2 (amended): for every model response, when `highlight_critical` is
true and the response contains "Critical Findings", `summarize_text`
returns as summary the stripped text preceding the first marker and as
critical findings the cleaned non-blank lines of the text between the
first marker and the next occurrence of the marker (to the end when it
occurs only once); otherwise the whole stripped response and no
findings. -/
theorem summarize_text_critical_split (respond : List Char → List Char → List Char)
    (t : Nat) (text : List Char) (role format : Option (List Char)) (hc : Bool) :
    ((summarize_text respond t text role format hc).1.summary,
     (summarize_text respond t text role format hc).1.critical_findings)
      = summarizeRefAmended (respond (systemMessage role format hc) text) hc :=
  extractCritical_eq (respond (systemMessage role format hc) text) hc

/-- C2, counterexample to the claim as stated: when the marker occurs
twice, the code takes the findings from the segment between the two
occurrences, not from all the text following the first one. -/
theorem summarize_text_claim_counterexample :
    (summarize_text (fun _ _ => "A Critical Findings B\nCritical Findings C".toList)
        0 [] none none true).1.critical_findings
      = some ["B".toList]
    ∧ (summarizeRefClaim "A Critical Findings B\nCritical Findings C".toList true).2
      = some ["B".toList, "Critical Findings C".toList]
    ∧ (summarize_text (fun _ _ => "A Critical Findings B\nCritical Findings C".toList)
        0 [] none none true).1.critical_findings
      ≠ (summarizeRefClaim "A Critical Findings B\nCritical Findings C".toList true).2 :=
  ⟨by decide, by decide, by decide⟩

/-- C9: the summary id of every result is `"sum_"` followed by the decimal
rendering of `int(time.time())`, independent of the file's text, the
response or the options, so any two summaries assembled within the same
second share the same id. -/
theorem summary_id_not_unique (respond₁ respond₂ : List Char → List Char → List Char)
    (t : Nat) (text₁ text₂ : List Char) (role₁ role₂ format₁ format₂ : Option (List Char))
    (hc₁ hc₂ : Bool) :
    (summarize_text respond₁ t text₁ role₁ format₁ hc₁).1.summary_id
      = "sum_".toList ++ natDigits t
    ∧ (summarize_text respond₁ t text₁ role₁ format₁ hc₁).1.summary_id
      = (summarize_text respond₂ t text₂ role₂ format₂ hc₂).1.summary_id :=
  ⟨rfl, rfl⟩

/-! ## `/feedback` (`main.py`, lines 50-53 and 208-230) -/

/-- A hexadecimal digit as `json.dumps` writes unicode escapes. -/
def hexDigit (n : Nat) : Char :=
  if n < 10 then Char.ofNat (48 + n) else Char.ofNat (87 + n)

def hex4 (n : Nat) : List Char :=
  [hexDigit (n / 4096 % 16), hexDigit (n / 256 % 16), hexDigit (n / 16 % 16), hexDigit (n % 16)]

/-- The escape of one character inside a JSON string literal, as
`json.dumps` with its default `ensure_ascii=True` produces it. -/
def escapeChar (c : Char) : List Char :=
  if c = '"' then ['\\', '"']
  else if c = '\\' then ['\\', '\\']
  else if c = '\n' then ['\\', 'n']
  else if c = '\t' then ['\\', 't']
  else if c = '\r' then ['\\', 'r']
  else if c = '\x08' then ['\\', 'b']
  else if c = '\x0c' then ['\\', 'f']
  else if c.toNat < 32 then '\\' :: 'u' :: hex4 c.toNat
  else if c.toNat < 128 then [c]
  else if c.toNat < 65536 then '\\' :: 'u' :: hex4 c.toNat
  else
    ('\\' :: 'u' :: hex4 (55296 + (c.toNat - 65536) / 1024))
      ++ ('\\' :: 'u' :: hex4 (56320 + (c.toNat - 65536) % 1024))

/-- A JSON string literal. -/
def jsonString (s : List Char) : List Char :=
  '"' :: (s.flatMap escapeChar) ++ ['"']

/-- An optional string: `json.dumps(None)` is `null`. -/
def jsonOptString : Option (List Char) → List Char
  | none => "null".toList
  | some s => jsonString s

/-- The validated `FeedbackRequest` model (lines 50-53). -/
structure FeedbackRequest where
  summary_id : List Char
  rating : Int
  comments : Option (List Char)
deriving DecidableEq

/-- The JSON line written by `submit_feedback`: `json.dumps` of the dict
with keys `summary_id`, `rating`, `comments`, `timestamp`, in insertion
order and with the default `", "` and `": "` separators. -/
def encodeFeedback (fb : FeedbackRequest) (timestamp : List Char) : List Char :=
  "\x7b\"summary_id\": ".toList ++ jsonString fb.summary_id
    ++ ", \"rating\": ".toList ++ intDigits fb.rating
    ++ ", \"comments\": ".toList ++ jsonOptString fb.comments
    ++ ", \"timestamp\": ".toList ++ jsonString timestamp ++ ['\x7d']

/-- The raw body of a `/feedback` request, before pydantic validation. -/
structure RawFeedback where
  summary_id : Option (List Char)
  rating : Option Int
  comments : Option (List Char)

/-- Pydantic validation of `FeedbackRequest`: `summary_id` required,
`rating` a required integer with `ge=1, le=5`, `comments` optional;
`none` models the 422 validation error (the handler is never entered). -/
def validateFeedback (r : RawFeedback) : Option FeedbackRequest :=
  match r.summary_id, r.rating with
  | some sid, some rt =>
    if 1 ≤ rt ∧ rt ≤ 5 then some ⟨sid, rt, r.comments⟩ else none
  | _, _ => none

/-- `submit_feedback` at integer timestamp `t` with ISO timestamp string
`timestamp`: the feedback file is a character stream opened in append
mode; a validated request appends `json.dumps(feedback_data) + "\n"` and
returns the `fb_<t>` id, an invalid one is rejected before the handler
runs and leaves the file unchanged. -/
def submit_feedback (file : List Char) (r : RawFeedback) (timestamp : List Char)
    (t : Nat) : Option (List Char) × List Char :=
  match validateFeedback r with
  | none => (none, file)
  | some fb =>
    (some ("fb_".toList ++ natDigits t), file ++ encodeFeedback fb timestamp ++ ['\n'])

/-! ### The serialized line contains no newline -/

theorem hexDigit_ne_newline {n : Nat} (h : n < 16) : hexDigit n ≠ '\n' := by
  intro heq
  have h10 : ('\n').toNat = 10 := by decide
  rw [hexDigit] at heq
  split at heq
  · have := congrArg Char.toNat heq
    rw [char_ofNat_toNat (by omega), h10] at this
    omega
  · have := congrArg Char.toNat heq
    rw [char_ofNat_toNat (by omega), h10] at this
    omega

theorem newline_not_mem_hex4 (n : Nat) : '\n' ∉ hex4 n := by
  intro hmem
  rw [hex4] at hmem
  simp only [List.mem_cons, List.mem_singleton, List.not_mem_nil, or_false] at hmem
  rcases hmem with h | h | h | h
  · exact hexDigit_ne_newline (Nat.mod_lt _ (by omega)) h.symm
  · exact hexDigit_ne_newline (Nat.mod_lt _ (by omega)) h.symm
  · exact hexDigit_ne_newline (Nat.mod_lt _ (by omega)) h.symm
  · exact hexDigit_ne_newline (Nat.mod_lt _ (by omega)) h.symm

set_option maxHeartbeats 1000000 in
theorem newline_not_mem_escapeChar (c : Char) : '\n' ∉ escapeChar c := by
  rw [escapeChar]
  split_ifs with h1 h2 h3 h4 h5 h6 h7 h8 h9 h10
  · decide
  · decide
  · decide
  · decide
  · decide
  · decide
  · decide
  · intro hmem
    simp only [List.mem_cons] at hmem
    rcases hmem with h | h | h
    · exact absurd h (by decide)
    · exact absurd h (by decide)
    · exact newline_not_mem_hex4 _ h
  · intro hmem
    simp only [List.mem_singleton] at hmem
    subst hmem
    exact h8 (by decide)
  · intro hmem
    simp only [List.mem_cons] at hmem
    rcases hmem with h | h | h
    · exact absurd h (by decide)
    · exact absurd h (by decide)
    · exact newline_not_mem_hex4 _ h
  · intro hmem
    rw [List.mem_append] at hmem
    rcases hmem with hmem | hmem <;>
    · simp only [List.mem_cons] at hmem
      rcases hmem with h | h | h
      · exact absurd h (by decide)
      · exact absurd h (by decide)
      · exact newline_not_mem_hex4 _ h

theorem newline_not_mem_jsonString (s : List Char) : '\n' ∉ jsonString s := by
  intro hmem
  rw [jsonString] at hmem
  rcases List.mem_cons.mp hmem with h | h
  · exact absurd h (by decide)
  rcases List.mem_append.mp h with h2 | h2
  · obtain ⟨a, _, ha⟩ := List.mem_flatMap.mp h2
    exact newline_not_mem_escapeChar a ha
  · exact absurd h2 (by decide)

theorem newline_not_mem_natDigitsGo (fuel n : Nat) : '\n' ∉ natDigitsGo fuel n := by
  induction fuel generalizing n with
  | zero => simp [natDigitsGo]
  | succ fuel ih =>
    rw [natDigitsGo]
    split
    · next h =>
      intro hmem
      simp only [List.mem_singleton] at hmem
      have := congrArg Char.toNat hmem.symm
      rw [char_ofNat_toNat (by omega), show ('\n').toNat = 10 by decide] at this
      omega
    · next h =>
      intro hmem
      rcases List.mem_append.mp hmem with hmem2 | hmem2
      · exact ih _ hmem2
      · simp only [List.mem_singleton] at hmem2
        have := congrArg Char.toNat hmem2.symm
        rw [char_ofNat_toNat (by omega), show ('\n').toNat = 10 by decide] at this
        omega

theorem newline_not_mem_intDigits (i : Int) : '\n' ∉ intDigits i := by
  rw [intDigits]
  split
  · intro hmem
    rcases List.mem_cons.mp hmem with h | h
    · exact absurd h (by decide)
    · exact newline_not_mem_natDigitsGo _ _ h
  · exact newline_not_mem_natDigitsGo _ _

theorem newline_not_mem_jsonOptString (o : Option (List Char)) :
    '\n' ∉ jsonOptString o := by
  cases o with
  | none => decide
  | some s => exact newline_not_mem_jsonString s

theorem newline_not_mem_encodeFeedback (fb : FeedbackRequest) (ts : List Char) :
    '\n' ∉ encodeFeedback fb ts := by
  intro hmem
  rw [encodeFeedback] at hmem
  simp only [List.mem_append] at hmem
  rcases hmem with ((((((((h | h) | h) | h) | h) | h) | h) | h) | h)
  · exact absurd h (by decide)
  · exact newline_not_mem_jsonString _ h
  · exact absurd h (by decide)
  · exact newline_not_mem_intDigits _ h
  · exact absurd h (by decide)
  · exact newline_not_mem_jsonOptString _ h
  · exact absurd h (by decide)
  · exact newline_not_mem_jsonString _ h
  · exact absurd h (by decide)

/-- C5: a `/feedback` request is accepted iff its `summary_id` is present
and its rating is an integer between 1 and 5 inclusive (comments being
optional), and a rejected request appends nothing to the feedback log. -/
theorem feedback_validation (file : List Char) (r : RawFeedback) (ts : List Char) (t : Nat) :
    ((submit_feedback file r ts t).1.isSome = true ↔
      (∃ sid, r.summary_id = some sid) ∧ ∃ rt, r.rating = some rt ∧ 1 ≤ rt ∧ rt ≤ 5)
    ∧ ((submit_feedback file r ts t).1 = none → (submit_feedback file r ts t).2 = file) := by
  obtain ⟨osid, ort, ocm⟩ := r
  cases osid with
  | none => simp [submit_feedback, validateFeedback]
  | some sid =>
    cases ort with
    | none => simp [submit_feedback, validateFeedback]
    | some rt =>
      by_cases hr : 1 ≤ rt ∧ rt ≤ 5
      · simp [submit_feedback, validateFeedback, hr]
      · simp [submit_feedback, validateFeedback, hr]

/-- Witness for C5: a rating of 6 is rejected and the log is unchanged. -/
theorem feedback_validation_witness :
    (submit_feedback "old line\n".toList
        ⟨some "abc".toList, some 6, none⟩ "2026-10-12".toList 0).1 = none
    ∧ (submit_feedback "old line\n".toList
        ⟨some "abc".toList, some 6, none⟩ "2026-10-12".toList 0).2 = "old line\n".toList :=
  ⟨by decide,
   (feedback_validation "old line\n".toList
      ⟨some "abc".toList, some 6, none⟩ "2026-10-12".toList 0).2 (by decide)⟩

/-- C6: every successful `/feedback` request appends exactly the JSON
serialization of the object with fields `summary_id`, `rating`,
`comments`, `timestamp` followed by one newline; the serialized object
contains no newline, so exactly one line is added, and the previous
contents of the file are untouched (the old file is a prefix of the new
one). -/
theorem feedback_append_only (file : List Char) (r : RawFeedback) (ts : List Char)
    (t : Nat) (fb : FeedbackRequest) (h : validateFeedback r = some fb) :
    (submit_feedback file r ts t).2 = file ++ encodeFeedback fb ts ++ ['\n']
    ∧ file <+: (submit_feedback file r ts t).2
    ∧ '\n' ∉ encodeFeedback fb ts := by
  have hs : submit_feedback file r ts t
      = (some ("fb_".toList ++ natDigits t), file ++ encodeFeedback fb ts ++ ['\n']) := by
    rw [submit_feedback, h]
  rw [hs]
  exact ⟨rfl, ⟨encodeFeedback fb ts ++ ['\n'], (List.append_assoc _ _ _).symm⟩,
    newline_not_mem_encodeFeedback fb ts⟩

/-- Witness for C6 on a concrete request. -/
theorem feedback_append_only_witness :
    (submit_feedback "old line\n".toList
        ⟨some "test_id_123".toList, some 4, some "Good summary".toList⟩
        "2026-10-12".toList 7).2
      = "old line\n".toList
        ++ encodeFeedback ⟨"test_id_123".toList, 4, some "Good summary".toList⟩
            "2026-10-12".toList ++ ['\n']
    ∧ "old line\n".toList <+:
        (submit_feedback "old line\n".toList
          ⟨some "test_id_123".toList, some 4, some "Good summary".toList⟩
          "2026-10-12".toList 7).2
    ∧ '\n' ∉ encodeFeedback ⟨"test_id_123".toList, 4, some "Good summary".toList⟩
        "2026-10-12".toList :=
  feedback_append_only "old line\n".toList
    ⟨some "test_id_123".toList, some 4, some "Good summary".toList⟩
    "2026-10-12".toList 7
    ⟨"test_id_123".toList, 4, some "Good summary".toList⟩ (by decide)

/-- C10: the endpoint never compares `summary_id` with anything: for every
string, a request with a rating between 1 and 5 succeeds and its line is
appended to the log. -/
theorem feedback_accepts_any_summary_id (file sid : List Char) (rt : Int)
    (cm : Option (List Char)) (ts : List Char) (t : Nat)
    (h1 : 1 ≤ rt) (h5 : rt ≤ 5) :
    (submit_feedback file ⟨some sid, some rt, cm⟩ ts t).1
        = some ("fb_".toList ++ natDigits t)
    ∧ (submit_feedback file ⟨some sid, some rt, cm⟩ ts t).2
        = file ++ encodeFeedback ⟨sid, rt, cm⟩ ts ++ ['\n'] := by
  have hv : validateFeedback ⟨some sid, some rt, cm⟩ = some ⟨sid, rt, cm⟩ := by
    rw [validateFeedback]
    exact if_pos ⟨h1, h5⟩
  have hs : submit_feedback file ⟨some sid, some rt, cm⟩ ts t
      = (some ("fb_".toList ++ natDigits t),
         file ++ encodeFeedback ⟨sid, rt, cm⟩ ts ++ ['\n']) := by
    rw [submit_feedback, hv]
  rw [hs]
  exact ⟨rfl, rfl⟩

/-- Witness for C10 with a summary id that `/summarize` never issued. -/
theorem feedback_accepts_any_summary_id_witness :
    (submit_feedback [] ⟨some "never_issued_by_any_summary".toList, some 3, none⟩
        "2026-10-12".toList 9).1 = some ("fb_".toList ++ natDigits 9)
    ∧ (submit_feedback [] ⟨some "never_issued_by_any_summary".toList, some 3, none⟩
        "2026-10-12".toList 9).2
      = [] ++ encodeFeedback ⟨"never_issued_by_any_summary".toList, 3, none⟩
          "2026-10-12".toList ++ ['\n'] :=
  feedback_accepts_any_summary_id [] "never_issued_by_any_summary".toList 3 none
    "2026-10-12".toList 9 (by decide) (by decide)

/-! ## `get_text_files` and `/summarize` (`main.py`, lines 63-81 and 172-206) -/

/-- The state of the requested directory: whether it exists, and the files
it holds as (name, raw content) pairs in the order `glob` lists them;
names are relative to the directory. -/
structure FileSys where
  dirExists : Bool
  entries : List (List Char × List Char)

/-- Whether `glob.glob(os.path.join(directory, "*.txt"))` matches a file
of this name: it ends in `.txt` and, as for every `*` pattern, does not
start with a dot. -/
def globTxt (name : List Char) : Bool :=
  match name with
  | '.' :: _ => false
  | _ => ".txt".toList.isSuffixOf name

/-- The directory entries the glob matches, in listing order. -/
def txtEntries (fs : FileSys) : List (List Char × List Char) :=
  fs.entries.filter (fun e => globTxt e.1)

/-- `os.path.join(directory, name)` for a directory without a trailing
slash. -/
def joinPath (dir name : List Char) : List Char :=
  dir ++ '/' :: name

/-- `os.path.basename(path)`: the text after the last `'/'`. -/
def basename (path : List Char) : List Char :=
  (splitChar '/' path).getLastD []

/-- `get_text_files(directory)`: the `ValueError` messages become
`Except.error` values (raised to HTTP 500 by the endpoint's
`except Exception` handler), otherwise the matched paths. -/
def get_text_files (fs : FileSys) (dir : List Char) :
    Except (List Char) (List (List Char)) :=
  if fs.dirExists = false then
    Except.error ("Directory not found: ".toList ++ dir)
  else if (txtEntries fs).isEmpty then
    Except.error ("No .txt files found in directory: ".toList ++ dir)
  else
    Except.ok ((txtEntries fs).map (fun e => joinPath dir e.1))

/-- The `FileProcessRequest` model (lines 44-48). -/
structure FileProcessRequest where
  directory : List Char
  role : Option (List Char)
  format : Option (List Char)
  highlight_critical : Bool

/-- The `for file_path in files` loop of `create_summaries`: reading the
path `directory/name` yields the entry's content, which `read_text_file`
strips; files shorter than 10 characters are skipped with a warning, the
others are summarized and get `file_name := basename(file_path)`.  The
second component collects the (system message, user text) pairs sent to
the model, in order. -/
def processEntries (respond : List Char → List Char → List Char) (t : Nat)
    (req : FileProcessRequest) :
    List (List Char × List Char) → List SummaryResult × List (List Char × List Char)
  | [] => ([], [])
  | (name, content) :: rest =>
    let acc := processEntries respond t req rest
    let text := pyStrip content
    if text.length < 10 then acc
    else
      let rc := summarize_text respond t text req.role req.format req.highlight_critical
      ({ rc.1 with file_name := basename (joinPath req.directory name) } :: acc.1,
       rc.2 :: acc.2)

/-- `create_summaries(request)`: a `ValueError` from `get_text_files`
becomes the 500 response with its text and no model call happens;
otherwise every matched file is processed in order. -/
def create_summaries (fs : FileSys) (req : FileProcessRequest)
    (respond : List Char → List Char → List Char) (t : Nat) :
    Except (List Char) (List SummaryResult) × List (List Char × List Char) :=
  match get_text_files fs req.directory with
  | Except.error e => (Except.error e, [])
  | Except.ok _ =>
    (Except.ok (processEntries respond t req (txtEntries fs)).1,
     (processEntries respond t req (txtEntries fs)).2)

/-! ### Splitting paths -/

theorem splitPred_append_sep {p : Char → Bool} {d : Char} (hd : p d = true)
    (x y : List Char) :
    splitPred p (x ++ d :: y) = splitPred p x ++ splitPred p y := by
  rw [splitPred_append]
  rw [show splitPred p (d :: y) = [] :: splitPred p y from by rw [splitPred, if_pos hd]]
  simp only [List.headD_cons, List.tail_cons, List.append_nil]
  rw [List.append_cons, dropLast_append_getLastD (splitPred_ne_nil p x)]

theorem splitPred_no_sep {p : Char → Bool} :
    ∀ {s : List Char}, (∀ c ∈ s, p c = false) → splitPred p s = [s] := by
  intro s
  induction s with
  | nil => intro _; rfl
  | cons c cs ih =>
    intro h
    rw [splitPred, if_neg (by simp [h c (by simp)])]
    rw [ih (fun x hx => h x (by simp [hx]))]

theorem basename_joinPath {name : List Char} (h : ('/' : Char) ∉ name)
    (dir : List Char) : basename (joinPath dir name) = name := by
  have hname : splitPred (fun c => decide (c = '/')) name = [name] :=
    splitPred_no_sep (fun c hc => by
      simp only [decide_eq_false_iff_not]
      intro hcc
      subst hcc
      exact h hc)
  rw [basename, joinPath, splitChar, splitPred_append_sep (by decide), hname]
  exact List.getLastD_concat _ _ _

theorem processEntries_spec (respond : List Char → List Char → List Char) (t : Nat)
    (req : FileProcessRequest) :
    ∀ entries : List (List Char × List Char),
      (∀ e ∈ entries, ('/' : Char) ∉ e.1) →
      ((processEntries respond t req entries).1.map (fun r => r.file_name)
          = (entries.filter (fun e => 10 ≤ (pyStrip e.2).length)).map (fun e => e.1))
      ∧ ((processEntries respond t req entries).2.map (fun c => c.2)
          = (entries.filter (fun e => 10 ≤ (pyStrip e.2).length)).map
              (fun e => pyStrip e.2)) := by
  intro entries
  induction entries with
  | nil => intro _; exact ⟨rfl, rfl⟩
  | cons e rest ih =>
    intro hn
    obtain ⟨name, content⟩ := e
    have ihr := ih (fun x hx => hn x (by simp [hx]))
    rw [processEntries]
    by_cases hlen : (pyStrip content).length < 10
    · have hcond : ¬ (10 ≤ (pyStrip content).length) := by omega
      simp only [if_pos hlen, List.filter_cons]
      constructor
      · rw [if_neg (by simpa using hcond)]
        exact ihr.1
      · rw [if_neg (by simpa using hcond)]
        exact ihr.2
    · have hcond : 10 ≤ (pyStrip content).length := by omega
      have hb : basename (joinPath req.directory name) = name :=
        basename_joinPath (hn (name, content) (by simp)) req.directory
      simp only [if_neg hlen, List.filter_cons]
      constructor
      · rw [if_pos (by simpa using hcond)]
        simp only [List.map_cons]
        rw [ihr.1]
        simp [hb]
      · rw [if_pos (by simpa using hcond)]
        simp only [List.map_cons]
        rw [ihr.2]
        rfl

/-- C7: `get_text_files` returns a (necessarily non-empty) list of paths
exactly when the directory exists and holds at least one file matching
`*.txt`; otherwise the request fails with the `ValueError` text naming
the directory, surfaced as the HTTP 500 body, and no call to the model is
made. -/
theorem summarize_error_handling (fs : FileSys) (req : FileProcessRequest)
    (respond : List Char → List Char → List Char) (t : Nat) :
    ((∃ l, get_text_files fs req.directory = Except.ok l ∧ l ≠ [])
        ↔ (fs.dirExists = true ∧ ∃ e ∈ fs.entries, globTxt e.1 = true))
    ∧ ∀ msg, get_text_files fs req.directory = Except.error msg →
        req.directory <:+ msg
        ∧ create_summaries fs req respond t = (Except.error msg, []) := by
  constructor
  · constructor
    · rintro ⟨l, hok, hne⟩
      rw [get_text_files] at hok
      split at hok
      · exact absurd hok (by simp)
      · split at hok
        · exact absurd hok (by simp)
        · next hdir hmt =>
          refine ⟨by simpa using hdir, ?_⟩
          have hne2 : txtEntries fs ≠ [] := by
            intro hnil
            rw [List.isEmpty_iff] at hmt
            exact hmt hnil
          cases htx : txtEntries fs with
          | nil => exact absurd htx hne2
          | cons a as =>
            have hamem : a ∈ txtEntries fs := by rw [htx]; simp
            have := List.mem_filter.mp hamem
            exact ⟨a, this.1, this.2⟩
    · rintro ⟨hdir, e, hmem, hglob⟩
      have htxtne : txtEntries fs ≠ [] := by
        intro hnil
        have hin : e ∈ txtEntries fs := List.mem_filter.mpr ⟨hmem, hglob⟩
        rw [hnil] at hin
        simp at hin
      rw [get_text_files]
      rw [if_neg (by simp [hdir]), if_neg (by simpa [List.isEmpty_iff] using htxtne)]
      exact ⟨_, rfl, by simpa using htxtne⟩
  · intro msg herr
    constructor
    · rw [get_text_files] at herr
      split at herr
      · simp only [Except.error.injEq] at herr
        exact ⟨_, herr⟩
      · split at herr
        · simp only [Except.error.injEq] at herr
          exact ⟨_, herr⟩
        · exact absurd herr (by simp)
    · rw [create_summaries, herr]

/-- Witness for C7: a missing directory yields the 500 error naming it
and an empty call log. -/
theorem summarize_error_handling_witness :
    "bad_dir".toList <:+ "Directory not found: bad_dir".toList
    ∧ create_summaries ⟨false, []⟩ ⟨"bad_dir".toList, none, none, true⟩
        (fun _ _ => []) 0
      = (Except.error "Directory not found: bad_dir".toList, []) :=
  (summarize_error_handling ⟨false, []⟩ ⟨"bad_dir".toList, none, none, true⟩
      (fun _ _ => []) 0).2
    "Directory not found: bad_dir".toList (by rfl)

/-- C3, counterexample to the claim as stated: a `.txt` file whose
stripped content is shorter than 10 characters is read but skipped, so
the returned list has no entry for it. -/
theorem create_summaries_claim_counterexample :
    (create_summaries ⟨true, [("a.txt".toList, "short".toList)]⟩
        ⟨"d".toList, none, none, true⟩ (fun _ _ => "response text".toList) 0).1
      = Except.ok []
    ∧ (txtEntries ⟨true, [("a.txt".toList, "short".toList)]⟩).length = 1 :=
  ⟨by rfl, by decide⟩

/-- C3 (amended): when the directory exists, holds at least one `*.txt`
file, and the file names contain no path separator, every matched `.txt`
file whose stripped content has at least 10 characters contributes
exactly one result object, in directory order, whose `file_name` is the
basename of the file's path, and exactly its stripped text is sent to the
completion endpoint; matched files with shorter stripped content are read
but skipped and contribute nothing. -/
theorem create_summaries_results (fs : FileSys) (req : FileProcessRequest)
    (respond : List Char → List Char → List Char) (t : Nat)
    (hdir : fs.dirExists = true) (hne : txtEntries fs ≠ [])
    (hnames : ∀ e ∈ fs.entries, ('/' : Char) ∉ e.1) :
    ∃ rs, (create_summaries fs req respond t).1 = Except.ok rs
      ∧ rs.map (fun r => r.file_name)
          = ((txtEntries fs).filter (fun e => 10 ≤ (pyStrip e.2).length)).map
              (fun e => e.1)
      ∧ (create_summaries fs req respond t).2.map (fun c => c.2)
          = ((txtEntries fs).filter (fun e => 10 ≤ (pyStrip e.2).length)).map
              (fun e => pyStrip e.2) := by
  have hok : get_text_files fs req.directory
      = Except.ok ((txtEntries fs).map (fun e => joinPath req.directory e.1)) := by
    rw [get_text_files]
    rw [if_neg (by simp [hdir]), if_neg (by simpa [List.isEmpty_iff] using hne)]
  have hcs : create_summaries fs req respond t
      = (Except.ok (processEntries respond t req (txtEntries fs)).1,
         (processEntries respond t req (txtEntries fs)).2) := by
    rw [create_summaries, hok]
  have hpe := processEntries_spec respond t req (txtEntries fs)
    (fun e he => hnames e (List.mem_filter.mp he).1)
  refine ⟨(processEntries respond t req (txtEntries fs)).1, ?_, ?_, ?_⟩
  · rw [hcs]
  · exact hpe.1
  · rw [hcs]
    exact hpe.2

/-- Witness for C3 on a concrete directory: the long note is summarized
under its own name, the short note and the non-`.txt` file contribute
nothing. -/
theorem create_summaries_results_witness :
    ∃ rs, (create_summaries
        ⟨true, [("note1.txt".toList, "Sample medical note for testing.".toList),
                ("short.txt".toList, "tiny".toList),
                ("readme.md".toList, "irrelevant content here".toList)]⟩
        ⟨"notes".toList, some "physician".toList, some "brief".toList, true⟩
        (fun _ _ => "Test summary. Critical Findings Finding 1".toList) 0).1
      = Except.ok rs
      ∧ rs.map (fun r => r.file_name)
          = ((txtEntries ⟨true,
              [("note1.txt".toList, "Sample medical note for testing.".toList),
               ("short.txt".toList, "tiny".toList),
               ("readme.md".toList, "irrelevant content here".toList)]⟩).filter
                (fun e => 10 ≤ (pyStrip e.2).length)).map (fun e => e.1)
      ∧ (create_summaries
          ⟨true, [("note1.txt".toList, "Sample medical note for testing.".toList),
                  ("short.txt".toList, "tiny".toList),
                  ("readme.md".toList, "irrelevant content here".toList)]⟩
          ⟨"notes".toList, some "physician".toList, some "brief".toList, true⟩
          (fun _ _ => "Test summary. Critical Findings Finding 1".toList) 0).2.map
            (fun c => c.2)
        = ((txtEntries ⟨true,
            [("note1.txt".toList, "Sample medical note for testing.".toList),
             ("short.txt".toList, "tiny".toList),
             ("readme.md".toList, "irrelevant content here".toList)]⟩).filter
              (fun e => 10 ≤ (pyStrip e.2).length)).map (fun e => pyStrip e.2) :=
  create_summaries_results
    ⟨true, [("note1.txt".toList, "Sample medical note for testing.".toList),
            ("short.txt".toList, "tiny".toList),
            ("readme.md".toList, "irrelevant content here".toList)]⟩
    ⟨"notes".toList, some "physician".toList, some "brief".toList, true⟩
    (fun _ _ => "Test summary. Critical Findings Finding 1".toList) 0
    (by decide) (by decide) (by decide)
